import Mathlib

/-!
Verification of the Runstatus-Pinnacle-AI repository against its
natural-language specification.  The Python sources are shallowly embedded:
numeric slack values become rationals, strings become `List Char`,
DataFrames become association lists of columns, and Python's string `hash`
becomes an abstract function parameter.  Each claim of the specification is
settled by a theorem about these definitions.
-/

namespace RunstatusPinnacle

/-! ## PREDICTION-MODULE/prediction.py : slack arithmetic -/

/-- Embedding of `improve_route_predictions`'s per-index body
(src/python/PREDICTION-MODULE/prediction.py lines 399-450): physics-based
blend of the raw model prediction with an expected route slack, weights
chosen by thresholds on the prediction error, then clamping into
`[min_input_slack - 0.05, max_input_slack + 0.02]`. -/
def improveOne (raw_pred place_slack cts_slack : ℚ) : ℚ :=
  let min_input_slack := min place_slack cts_slack
  let max_input_slack := max place_slack cts_slack
  let avg_input_slack := (place_slack + cts_slack) / 2
  let slack_difference := |place_slack - cts_slack|
  let base_expectation := min_input_slack * (85/100) + avg_input_slack * (15/100)
  let optimization_factor := min (slack_difference * (1/10)) (3/100)
  let expected_route_slack := base_expectation + optimization_factor
  let prediction_error := |raw_pred - expected_route_slack|
  let corrected :=
    if prediction_error < 2/100 then
      raw_pred * (8/10) + expected_route_slack * (2/10)
    else if prediction_error < 5/100 then
      raw_pred * (6/10) + expected_route_slack * (4/10)
    else if prediction_error < 1/10 then
      raw_pred * (4/10) + expected_route_slack * (6/10)
    else
      raw_pred * (2/10) + expected_route_slack * (8/10)
  let upper_bound := max_input_slack + 2/100
  let lower_bound := min_input_slack - 5/100
  min (max corrected lower_bound) upper_bound

/-- Embedding of `improve_route_predictions`
(src/python/PREDICTION-MODULE/prediction.py lines 386-451): iterates
`improveOne` over the indices of the input arrays. -/
def improve_route_predictions (raw_predictions place_slacks cts_slacks : List ℚ) :
    List ℚ :=
  (List.range raw_predictions.length).map fun i =>
    improveOne (raw_predictions.getD i 0) (place_slacks.getD i 0) (cts_slacks.getD i 0)

/-- Embedding of `calculate_synthetic_route_slack`
(src/python/PREDICTION-MODULE/prediction.py lines 453-526).  Python's
`hash(f"{place_slack:.6f}_{cts_slack:.6f}")` and
`hash(f"{place_slack}_{cts_slack}")` are modelled by the abstract parameters
`H1 H2 : ℚ → ℚ → ℤ` (the hash of a formatted string is a function of the two
slack inputs); `%` on a Python int by a positive modulus agrees with
`Int.emod`, and Python's `abs` is `Int.natAbs`. -/
def calculate_synthetic_route_slack (H1 H2 : ℚ → ℚ → ℤ)
    (place_slack cts_slack : ℚ) : ℚ :=
  let min_slack := min place_slack cts_slack
  let max_slack := max place_slack cts_slack
  let avg_slack := (place_slack + cts_slack) / 2
  let slack_difference := |place_slack - cts_slack|
  let critical_weight : ℚ :=
    if |min_slack| > 5/10 then 92/100
    else if |min_slack| > 3/10 then 89/100
    else 85/100
  let avg_weight : ℚ :=
    if |min_slack| > 5/10 then 8/100
    else if |min_slack| > 3/10 then 11/100
    else 15/100
  let base_route_slack := min_slack * critical_weight + avg_slack * avg_weight
  let optimization_factor : ℚ :=
    if slack_difference > 1/10 then 25/1000
    else if slack_difference > 5/100 then 15/1000
    else 8/1000
  let slack_hash : ℚ := ((H1 place_slack cts_slack) % 1000 : ℤ) / 1000
  let optimization_applied := optimization_factor * (4/10 + 6/10 * slack_hash)
  let route_slack := base_route_slack + optimization_applied
  let variation_seed : ℕ := (H2 place_slack cts_slack).natAbs % 100
  let variation := ((variation_seed : ℚ) / 100 - 5/10) * (8/1000)
  let route_slack := route_slack + variation
  let upper_bound := max_slack + 12/1000
  let lower_bound := min_slack - 25/1000
  min (max route_slack lower_bound) upper_bound

/-- Clamping `x` by `max · lo` then `min · hi` lands in `[lo, hi]` whenever
`lo ≤ hi`. -/
lemma clamp_mem {x lo hi : ℚ} (h : lo ≤ hi) :
    lo ≤ min (max x lo) hi ∧ min (max x lo) hi ≤ hi :=
  ⟨le_min (le_max_right _ _) h, min_le_right _ _⟩

/-- **C1.** For every pair of rational inputs and every pair of hash
functions, `calculate_synthetic_route_slack` returns a value in the closed
interval `[min(place_slack, cts_slack) - 0.025, max(place_slack, cts_slack)
+ 0.012]`: the final bound-checking clamp guarantees the interval regardless
of the hash-derived optimization and variation terms. -/
theorem synthetic_route_slack_bounds (H1 H2 : ℚ → ℚ → ℤ)
    (place_slack cts_slack : ℚ) :
    min place_slack cts_slack - 25/1000 ≤
        calculate_synthetic_route_slack H1 H2 place_slack cts_slack ∧
      calculate_synthetic_route_slack H1 H2 place_slack cts_slack ≤
        max place_slack cts_slack + 12/1000 := by
  have hlohi : min place_slack cts_slack - 25/1000 ≤
      max place_slack cts_slack + 12/1000 := by
    have := min_le_max (a := place_slack) (b := cts_slack)
    linarith
  unfold calculate_synthetic_route_slack
  exact clamp_mem hlohi

/-- The per-index correction of `improve_route_predictions` lands in
`[min(place, cts) - 0.05, max(place, cts) + 0.02]`. -/
lemma improveOne_bounds (raw place cts : ℚ) :
    min place cts - 5/100 ≤ improveOne raw place cts ∧
      improveOne raw place cts ≤ max place cts + 2/100 := by
  have hlohi : min place cts - 5/100 ≤ max place cts + 2/100 := by
    have := min_le_max (a := place) (b := cts)
    linarith
  unfold improveOne
  exact clamp_mem hlohi

/-- **C3.** For every index `i` of its input arrays, the value produced by
`improve_route_predictions` lies within
`[min(place_slacks[i], cts_slacks[i]) - 0.05,
  max(place_slacks[i], cts_slacks[i]) + 0.02]`. -/
theorem improve_route_predictions_bounds
    (raw_predictions place_slacks cts_slacks : List ℚ) (i : ℕ)
    (hR : i < raw_predictions.length) (hP : i < place_slacks.length)
    (hC : i < cts_slacks.length) :
    min (place_slacks.getD i 0) (cts_slacks.getD i 0) - 5/100 ≤
        (improve_route_predictions raw_predictions place_slacks cts_slacks).getD i 0 ∧
      (improve_route_predictions raw_predictions place_slacks cts_slacks).getD i 0 ≤
        max (place_slacks.getD i 0) (cts_slacks.getD i 0) + 2/100 := by
  have hval : (improve_route_predictions raw_predictions place_slacks cts_slacks).getD i 0
      = improveOne (raw_predictions.getD i 0) (place_slacks.getD i 0)
          (cts_slacks.getD i 0) := by
    unfold improve_route_predictions
    rw [List.getD_eq_getElem?_getD, List.getElem?_map, List.getElem?_range hR]
    rfl
  rw [hval]
  exact improveOne_bounds _ _ _

/-- Concrete instantiation of `improve_route_predictions_bounds` at index 0
of the one-element arrays `[6], [5], [7]`. -/
theorem improve_route_predictions_bounds_witness :
    min (5 : ℚ) 7 - 5/100 ≤ (improve_route_predictions [6] [5] [7]).getD 0 0 ∧
      (improve_route_predictions [6] [5] [7]).getD 0 0 ≤ max (5 : ℚ) 7 + 2/100 :=
  improve_route_predictions_bounds [6] [5] [7] 0 (by decide) (by decide) (by decide)

/-- **C6.** `calculate_synthetic_route_slack` is deterministic: for any fixed
hash functions, two invocations on equal `(place_slack, cts_slack)` inputs
return equal results — the hash-derived variation and optimization terms are
functions of the inputs only. -/
theorem synthetic_route_slack_deterministic (H1 H2 : ℚ → ℚ → ℤ)
    (p c p' c' : ℚ) (hp : p = p') (hc : c = c') :
    calculate_synthetic_route_slack H1 H2 p c =
      calculate_synthetic_route_slack H1 H2 p' c' := by
  subst hp; subst hc; rfl

/-- Concrete instantiation of `synthetic_route_slack_deterministic` with the
zero hash functions at input `(1, 1)`. -/
theorem synthetic_route_slack_deterministic_witness :
    calculate_synthetic_route_slack (fun _ _ => (0 : ℤ)) (fun _ _ => (0 : ℤ)) 1 1 =
      calculate_synthetic_route_slack (fun _ _ => (0 : ℤ)) (fun _ _ => (0 : ℤ)) 1 1 :=
  synthetic_route_slack_deterministic (fun _ _ => (0 : ℤ)) (fun _ _ => (0 : ℤ))
    1 1 1 1 rfl rfl

/-! ### Structural decomposition of the route-slack correction (claim C4)

The following definitions restate, in the specification's words, the pieces
the correction is claimed to consist of: a physics-based expectation, a
blend weight chosen from a fixed set by thresholds, and a deterministic
perturbation derived by hashing the input slack values.  The theorem below
shows the source functions decompose exactly into these pieces. -/

/-- The physics-based expected route slack that `improve_route_predictions`
blends the raw prediction towards. -/
def expectedRouteSlack (place cts : ℚ) : ℚ :=
  min place cts * (85/100) + ((place + cts) / 2) * (15/100) +
    min (|place - cts| * (1/10)) (3/100)

/-- The fixed blend weight on the raw prediction, selected by thresholds on
the prediction error. -/
def blendWeight (prediction_error : ℚ) : ℚ :=
  if prediction_error < 2/100 then 8/10
  else if prediction_error < 5/100 then 6/10
  else if prediction_error < 1/10 then 4/10
  else 2/10

/-- The weight that `calculate_synthetic_route_slack` puts on the critical
(worse) slack, selected by thresholds on the slack magnitude `|min_slack|`. -/
def criticalWeight (place cts : ℚ) : ℚ :=
  if |min place cts| > 5/10 then 92/100
  else if |min place cts| > 3/10 then 89/100
  else 85/100

/-- The deterministic pseudo-random perturbation of the synthetic route
slack, derived by hashing the input slack values: the optimization term
scaled by the first hash plus the variation term from the second hash. -/
def hashPerturbation (H1 H2 : ℚ → ℚ → ℤ) (place cts : ℚ) : ℚ :=
  (if |place - cts| > 1/10 then (25/1000 : ℚ)
   else if |place - cts| > 5/100 then 15/1000
   else 8/1000) * (4/10 + 6/10 * (((H1 place cts) % 1000 : ℤ) / 1000)) +
  (((((H2 place cts).natAbs % 100 : ℕ)) : ℚ) / 100 - 5/10) * (8/1000)

/-- **C4.** The correction applied to route-slack output blends the raw
prediction with a physics-based expectation using fixed weight pairs
`(w, 1-w)` chosen by thresholds — `improveOne` picks
`w ∈ {0.8, 0.6, 0.4, 0.2}` by thresholds on the prediction error, and
`calculate_synthetic_route_slack` picks its critical-path weight
`∈ {0.92, 0.89, 0.85}` by slack-magnitude thresholds — plus a deterministic
pseudo-random perturbation derived by hashing the input slack values. -/
theorem route_correction_structure (raw place cts : ℚ) (H1 H2 : ℚ → ℚ → ℤ) :
    (∃ w, (w = 8/10 ∨ w = 6/10 ∨ w = 4/10 ∨ w = 2/10) ∧
      w = blendWeight |raw - expectedRouteSlack place cts| ∧
      improveOne raw place cts =
        min (max (raw * w + expectedRouteSlack place cts * (1 - w))
              (min place cts - 5/100))
          (max place cts + 2/100)) ∧
    (criticalWeight place cts = 92/100 ∨ criticalWeight place cts = 89/100 ∨
      criticalWeight place cts = 85/100) ∧
    calculate_synthetic_route_slack H1 H2 place cts =
      min (max (min place cts * criticalWeight place cts +
                ((place + cts) / 2) * (1 - criticalWeight place cts) +
                hashPerturbation H1 H2 place cts)
            (min place cts - 25/1000))
        (max place cts + 12/1000) := by
  refine ⟨⟨blendWeight |raw - expectedRouteSlack place cts|, ?_, rfl, ?_⟩, ?_, ?_⟩
  · unfold blendWeight
    split_ifs <;> norm_num
  · simp only [improveOne, blendWeight, expectedRouteSlack]
    split_ifs <;> ring_nf
  · unfold criticalWeight
    split_ifs <;> norm_num
  · simp only [calculate_synthetic_route_slack, criticalWeight, hashPerturbation]
    split_ifs <;> ring_nf

/-! ## PREDICTION-MODULE/prediction.py : endpoint normalization (claim C2) -/

/-- Python's `str.split(sep)` on a single-character separator, acting on the
character list of the string: always returns at least one (possibly empty)
segment, and an empty segment for each adjacent pair of separators. -/
def splitOnChar (sep : Char) : List Char → List (List Char)
  | [] => [[]]
  | c :: cs =>
    if c = sep then [] :: splitOnChar sep cs
    else
      match splitOnChar sep cs with
      | [] => [[c]]
      | p :: ps => (c :: p) :: ps

/-- `splitOnChar` never returns the empty list of segments. -/
lemma splitOnChar_ne_nil (sep : Char) (l : List Char) : splitOnChar sep l ≠ [] := by
  induction l with
  | nil => simp [splitOnChar]
  | cons c cs ih =>
    simp only [splitOnChar]
    split_ifs
    · simp
    · cases h : splitOnChar sep cs <;> simp

/-- The split has at least two segments exactly when the separator occurs. -/
lemma two_le_splitOnChar_length (sep : Char) (l : List Char) :
    2 ≤ (splitOnChar sep l).length ↔ sep ∈ l := by
  induction l with
  | nil => simp [splitOnChar]
  | cons c cs ih =>
    simp only [splitOnChar]
    by_cases hc : c = sep
    · simp only [if_pos hc, List.length_cons]
      have h1 : 1 ≤ (splitOnChar sep cs).length :=
        List.length_pos.mpr (splitOnChar_ne_nil sep cs)
      constructor
      · intro _; exact hc ▸ List.mem_cons_self c cs
      · intro _; omega
    · simp only [if_neg hc]
      cases h : splitOnChar sep cs with
      | nil => exact absurd h (splitOnChar_ne_nil sep cs)
      | cons p ps =>
        rw [h] at ih
        simp only [List.length_cons] at ih ⊢
        rw [List.mem_cons]
        constructor
        · intro hlen; exact Or.inr (ih.mp hlen)
        · rintro (hcs | hmem)
          · exact absurd hcs.symm hc
          · exact ih.mpr hmem

/-- Embedding of `normalize_endpoint`
(src/python/PREDICTION-MODULE/prediction.py lines 127-131) on the string
case: split on `'/'` and, when there are at least two parts, return
`parts[-2] + '/' + parts[-1]`, otherwise the endpoint unchanged. -/
def normalize_endpoint (endpoint : List Char) : List Char :=
  let parts := splitOnChar '/' endpoint
  if 2 ≤ parts.length then
    parts.getD (parts.length - 2) [] ++ '/' :: parts.getD (parts.length - 1) []
  else endpoint

/-- Stated from the specification's words: the last two `'/'`-separated
segments of the endpoint, joined by `'/'`. -/
def lastTwoSegmentsJoined (endpoint : List Char) : List Char :=
  let parts := splitOnChar '/' endpoint
  List.intercalate ['/'] (parts.drop (parts.length - 2))

/-- `intercalate` of a two-element list is concatenation around the
separator. -/
lemma intercalate_pair (sep a b : List Char) :
    List.intercalate sep [a, b] = a ++ sep ++ b := by
  simp [List.intercalate, List.intersperse]

/-- Dropping all but the last two elements of a list of length at least two
leaves exactly the two elements read off with `getD`. -/
lemma drop_length_sub_two {α : Type} (l : List α) (d : α)
    (h : 2 ≤ l.length) :
    l.drop (l.length - 2) = [l.getD (l.length - 2) d, l.getD (l.length - 1) d] := by
  have h2 : l.length - 2 < l.length := by omega
  have h1 : l.length - 1 < l.length := by omega
  rw [List.drop_eq_getElem_cons h2]
  have hstep : l.length - 2 + 1 = l.length - 1 := by omega
  rw [hstep, List.drop_eq_getElem_cons h1]
  have hend : l.length - 1 + 1 = l.length := by omega
  rw [hend, List.drop_length, List.getD_eq_getElem l d h2, List.getD_eq_getElem l d h1]

/-- **C2.** For every endpoint containing at least one `'/'`,
`normalize_endpoint` returns exactly the last two `'/'`-separated segments
joined by `'/'`; for every endpoint with no `'/'` it returns the endpoint
unchanged. -/
theorem normalize_endpoint_spec (endpoint : List Char) :
    ('/' ∈ endpoint → normalize_endpoint endpoint = lastTwoSegmentsJoined endpoint) ∧
    ('/' ∉ endpoint → normalize_endpoint endpoint = endpoint) := by
  constructor
  · intro hmem
    have h2 : 2 ≤ (splitOnChar '/' endpoint).length :=
      (two_le_splitOnChar_length '/' endpoint).mpr hmem
    simp only [normalize_endpoint, lastTwoSegmentsJoined]
    rw [if_pos h2, drop_length_sub_two (splitOnChar '/' endpoint) [] h2,
      intercalate_pair]
    simp
  · intro hmem
    have h2 : ¬ 2 ≤ (splitOnChar '/' endpoint).length := by
      rw [two_le_splitOnChar_length]; exact hmem
    simp only [normalize_endpoint]
    rw [if_neg h2]

/-- Concrete instantiation of `normalize_endpoint_spec`: the endpoint
`"x/a/b"` contains `'/'` and normalizes to its last two segments `"a/b"`;
the endpoint `"ab"` contains no `'/'` and is returned unchanged. -/
theorem normalize_endpoint_spec_witness :
    normalize_endpoint ['x', '/', 'a', '/', 'b'] =
        lastTwoSegmentsJoined ['x', '/', 'a', '/', 'b'] ∧
      normalize_endpoint ['a', 'b'] = ['a', 'b'] :=
  ⟨(normalize_endpoint_spec ['x', '/', 'a', '/', 'b']).1 (by decide),
   (normalize_endpoint_spec ['a', 'b']).2 (by decide)⟩

/-! ## Database connection retry loops (claim C7)

`improved_chat2sql_backend.get_connection_with_retry` and
`dynamic_query_handler.DynamicQueryHandler._get_connection` run the same
loop: while `retries < max_retries`, try to connect; on success return the
connection immediately; on failure record the error, sleep the fixed delay,
and increment `retries`; after the loop re-raise the last error.  The
outcome of the `i`-th `psycopg2.connect` call is modelled by an abstract
`attempt : ℕ → Except E C`; the returned list records the sleeps performed
(one entry of `delay` seconds per failed attempt).  The error component is
an `Option E` because with `max_retries = 0` the Python code would `raise
None` without any attempt. -/

/-- The retry loop, recursing on the number of remaining attempts, with
`idx` the index of the next attempt and `lastErr` the last recorded
error. -/
def retryAux {E C : Type} (attempt : ℕ → Except E C) (delay : ℕ) :
    ℕ → Option E → ℕ → Except (Option E) C × List ℕ
  | _, lastErr, 0 => (Except.error lastErr, [])
  | idx, _, n + 1 =>
    match attempt idx with
    | Except.ok c => (Except.ok c, [])
    | Except.error e =>
      let r := retryAux attempt delay (idx + 1) (some e) n
      (r.1, delay :: r.2)

/-- Embedding of `get_connection_with_retry`
(src/improved_chat2sql_backend.py lines 53-78). -/
def get_connection_with_retry {E C : Type} (attempt : ℕ → Except E C)
    (max_retries : ℕ := 3) (retry_delay : ℕ := 2) :
    Except (Option E) C × List ℕ :=
  retryAux attempt retry_delay 0 none max_retries

/-- Embedding of `DynamicQueryHandler._get_connection`
(src/dynamic_query_handler.py lines 36-58): the identical loop with the
sleep hard-coded to 2 seconds. -/
def dqh_get_connection {E C : Type} (attempt : ℕ → Except E C)
    (max_retries : ℕ := 3) : Except (Option E) C × List ℕ :=
  retryAux attempt 2 0 none max_retries

lemma retryAux_success {E C : Type} (attempt : ℕ → Except E C) (delay : ℕ) :
    ∀ (n idx : ℕ) (lastErr : Option E) (k : ℕ) (c : C), k < n →
      (∀ j, j < k → ∃ e, attempt (idx + j) = Except.error e) →
      attempt (idx + k) = Except.ok c →
      retryAux attempt delay idx lastErr n = (Except.ok c, List.replicate k delay) := by
  intro n
  induction n with
  | zero => intro idx lastErr k c hk; omega
  | succ m ih =>
    intro idx lastErr k c hk hfail hok
    cases k with
    | zero =>
      simp only [Nat.add_zero] at hok
      simp [retryAux, hok]
    | succ j =>
      obtain ⟨e, he⟩ := hfail 0 (Nat.succ_pos j)
      rw [Nat.add_zero] at he
      have hrec := ih (idx + 1) (some e) j c (by omega)
        (fun j' hj' => by
          obtain ⟨e', he'⟩ := hfail (j' + 1) (by omega)
          exact ⟨e', by rw [← he']; congr 1; omega⟩)
        (by rw [← hok]; congr 1; omega)
      simp [retryAux, he, hrec, List.replicate_succ]

lemma retryAux_all_fail {E C : Type} (attempt : ℕ → Except E C) (delay : ℕ) :
    ∀ (n idx : ℕ) (lastErr : Option E) (e : E), 1 ≤ n →
      (∀ j, j < n → ∃ e', attempt (idx + j) = Except.error e') →
      attempt (idx + (n - 1)) = Except.error e →
      retryAux attempt delay idx lastErr n =
        (Except.error (some e), List.replicate n delay) := by
  intro n
  induction n with
  | zero => intro idx lastErr e h1; omega
  | succ m ih =>
    intro idx lastErr e _ hfail hlast
    cases m with
    | zero =>
      have hlast' : attempt idx = Except.error e := by simpa using hlast
      simp [retryAux, hlast']
    | succ m' =>
      obtain ⟨e0, he0⟩ := hfail 0 (Nat.succ_pos _)
      rw [Nat.add_zero] at he0
      have hrec := ih (idx + 1) (some e0) e (Nat.succ_pos m')
        (fun j' hj' => by
          obtain ⟨e', he'⟩ := hfail (j' + 1) (by omega)
          exact ⟨e', by rw [← he']; congr 1; omega⟩)
        (by rw [← hlast]; congr 1; omega)
      have hstep : retryAux attempt delay idx lastErr (m' + 1 + 1) =
          ((retryAux attempt delay (idx + 1) (some e0) (m' + 1)).1,
            delay :: (retryAux attempt delay (idx + 1) (some e0) (m' + 1)).2) := by
        simp only [retryAux, he0]
      rw [hstep, hrec]
      simp [List.replicate_succ]

/-- **C7.** The connection retry loop is fixed-count and fixed-sleep: it
returns the connection of the first successful attempt, having slept the
fixed delay once per preceding failure; if every attempt fails it makes
exactly `max_retries` attempts, sleeping the fixed delay after each
failure, and re-raises the last error; and `_get_connection` of
`dynamic_query_handler.py` is the same loop with delay 2. -/
theorem connection_retry_spec {E C : Type} (attempt : ℕ → Except E C)
    (max_retries retry_delay : ℕ) :
    (∀ (k : ℕ) (c : C), k < max_retries →
        (∀ j, j < k → ∃ e, attempt j = Except.error e) →
        attempt k = Except.ok c →
        get_connection_with_retry attempt max_retries retry_delay =
          (Except.ok c, List.replicate k retry_delay)) ∧
    (∀ (e : E), 1 ≤ max_retries →
        (∀ j, j < max_retries → ∃ e', attempt j = Except.error e') →
        attempt (max_retries - 1) = Except.error e →
        get_connection_with_retry attempt max_retries retry_delay =
          (Except.error (some e), List.replicate max_retries retry_delay)) ∧
    dqh_get_connection attempt max_retries =
      get_connection_with_retry attempt max_retries 2 := by
  refine ⟨?_, ?_, rfl⟩
  · intro k c hk hfail hok
    exact retryAux_success attempt retry_delay max_retries 0 none k c hk
      (fun j hj => by simpa using hfail j hj) (by simpa using hok)
  · intro e h1 hfail hlast
    exact retryAux_all_fail attempt retry_delay max_retries 0 none e h1
      (fun j hj => by simpa using hfail j hj) (by simpa using hlast)

/-- Concrete instantiation of `connection_retry_spec`: an attempt function
that succeeds immediately yields the connection with no sleeps, and one that
always fails yields the last error after exactly three attempts with three
sleeps of two seconds. -/
theorem connection_retry_spec_witness :
    get_connection_with_retry (fun _ => (Except.ok 7 : Except ℕ ℕ)) 3 2 =
        (Except.ok 7, List.replicate 0 2) ∧
      get_connection_with_retry (fun i => (Except.error i : Except ℕ ℕ)) 3 2 =
        (Except.error (some 2), List.replicate 3 2) :=
  ⟨(connection_retry_spec (fun _ => (Except.ok 7 : Except ℕ ℕ)) 3 2).1 0 7
      (by decide) (fun j hj => absurd hj (by omega)) rfl,
   (connection_retry_spec (fun i => (Except.error i : Except ℕ ℕ)) 3 2).2.1 2
      (by decide) (fun j _ => ⟨j, rfl⟩) rfl⟩

/-! ## CHAT2SQL-MODULE/backend.py : keyword-to-SQL shortcut (claim C8) -/

/-- Python's `str.lower()` on the character list of a string. -/
def pyLower (s : List Char) : List Char := s.map Char.toLower

/-- The fixed phrases checked by `generate_sql_with_ollama`
(src/python/CHAT2SQL-MODULE/backend.py line 185). -/
def tableListingPhrases : List (List Char) :=
  ["list tables".data, "show tables".data, "all tables".data,
   "list all tables".data, "show all tables".data, "database".data]

/-- The SQL single-quote character. -/
def sqlQuote : Char := Char.ofNat 39

/-- The fixed `information_schema` table-listing SQL string returned by the
shortcut branch (src/python/CHAT2SQL-MODULE/backend.py lines 187-197),
whitespace included. -/
def tableListingSQL : List Char :=
  "\n                SELECT \n                    table_name\n                FROM \n                    information_schema.tables\n                WHERE \n                    table_schema = ".data ++
    [sqlQuote] ++ "public".data ++ [sqlQuote] ++
    "\n                    AND table_type = ".data ++
    [sqlQuote] ++ "BASE TABLE".data ++ [sqlQuote] ++
    "\n                ORDER BY \n                    table_name;\n            ".data

/-- Embedding of `generate_sql_with_ollama`
(src/python/CHAT2SQL-MODULE/backend.py lines 180-197): lowercase the query;
if any of the fixed phrases is a substring, return the fixed table-listing
SQL; otherwise build a prompt and call the Ollama API, modelled by the
abstract parameter `ollama`. -/
def generate_sql_with_ollama (ollama : List Char → List Char)
    (query : List Char) : List Char :=
  if ∃ p ∈ tableListingPhrases, p <:+: pyLower query then tableListingSQL
  else ollama query

/-- **C8.** For every query whose lowercase form contains one of the fixed
table-listing phrases, `generate_sql_with_ollama` returns the fixed
`information_schema` SQL string, independently of the Ollama API (the
result is the same for every `ollama` function, which is therefore never
consulted). -/
theorem table_listing_keyword_path (query : List Char)
    (h : ∃ p ∈ tableListingPhrases, p <:+: pyLower query) :
    ∀ ollama : List Char → List Char,
      generate_sql_with_ollama ollama query = tableListingSQL := by
  intro ollama
  unfold generate_sql_with_ollama
  rw [if_pos h]

/-- Concrete instantiation of `table_listing_keyword_path` on the query
`"Show Tables"`, whose lowercase form contains the phrase
`"show tables"`. -/
theorem table_listing_keyword_path_witness :
    generate_sql_with_ollama (fun q => q) "Show Tables".data = tableListingSQL :=
  table_listing_keyword_path "Show Tables".data (by decide) (fun q => q)

/-! ## PREDICTION-MODULE/prediction.py : /api/train parameter handling (claim C10) -/

/-- Python truthiness of an optional string query parameter: `None` and the
empty string are falsy. -/
def truthy : Option (List Char) → Bool
  | none => false
  | some s => !s.isEmpty

/-- Python's `a or b` on optional strings: `a` when truthy, else `b`. -/
def pyOr (a b : Option (List Char)) : Option (List Char) :=
  if truthy a then a else b

/-- Embedding of the parameter handling of the `/api/train` handler
`api_train` (src/python/PREDICTION-MODULE/prediction.py lines 200-246):
resolve each table name against its alternative parameter name with `or`,
reject when place or cts is missing, substitute the cts table for a missing
route table, and build the `TrainRequest` (returned here as the triple of
resolved table names). -/
def api_train (place_table cts_table route_table place cts route :
    Option (List Char)) : Except (List Char) (List Char × List Char × List Char) :=
  let place_table := pyOr place_table place
  let cts_table := pyOr cts_table cts
  let route_table := pyOr route_table route
  if !(truthy place_table && truthy cts_table) then
    Except.error "Missing required parameters. Please provide at least place_table (or place) and cts_table (or cts).".data
  else
    let route_table := if truthy route_table then route_table else cts_table
    Except.ok (place_table.getD [], cts_table.getD [], route_table.getD [])

/-- Embedding of the argument handling of `handle_train_command`
(src/python/PREDICTION-MODULE/prediction.py lines 2415-2436): the chat
command is already split into words; fewer than three words is an error;
otherwise the tables are words 1 and 2, and the route table is word 3 when
present, else the cts table. -/
def handle_train_command (parts : List (List Char)) :
    Except (List Char) (List Char × List Char × List Char) :=
  if parts.length < 3 then
    Except.error "I need at least two table names for training.".data
  else
    let place_table := parts.getD 1 []
    let cts_table := parts.getD 2 []
    let route_opt : Option (List Char) :=
      if parts.length > 3 then some (parts.getD 3 []) else none
    let route_table := if truthy route_opt then route_opt.getD [] else cts_table
    Except.ok (place_table, cts_table, route_table)

/-- **C10.** A `/api/train` request that supplies place and cts tables (under
either parameter name) but omits the route table is not rejected: the cts
table name is silently substituted for the route table; and
`handle_train_command` applies the same substitution to a three-word
`train` command. -/
theorem train_route_table_substitution
    (place_table place cts_table cts : Option (List Char))
    (parts : List (List Char))
    (hp : truthy (pyOr place_table place) = true)
    (hc : truthy (pyOr cts_table cts) = true)
    (hlen : parts.length = 3) :
    api_train place_table cts_table none place cts none =
      Except.ok ((pyOr place_table place).getD [],
        (pyOr cts_table cts).getD [], (pyOr cts_table cts).getD []) ∧
    handle_train_command parts =
      Except.ok (parts.getD 1 [], parts.getD 2 [], parts.getD 2 []) := by
  constructor
  · simp only [api_train, pyOr, truthy, if_neg, Bool.false_eq_true,
      ite_false] at *
    simp [hp, hc, truthy, pyOr]
  · simp only [handle_train_command]
    rw [if_neg (by omega), if_neg (by omega : ¬ parts.length > 3)]
    simp [truthy]

/-- Concrete instantiation of `train_route_table_substitution`: request
parameters `place_table="tp"`, `cts_table="tc"` with no route table, and
the chat command `train tp tc`. -/
theorem train_route_table_substitution_witness :
    api_train (some "tp".data) (some "tc".data) none none none none =
      Except.ok ("tp".data, "tc".data, "tc".data) ∧
    handle_train_command ["train".data, "tp".data, "tc".data] =
      Except.ok ("tp".data, "tc".data, "tc".data) :=
  train_route_table_substitution (some "tp".data) none (some "tc".data) none
    ["train".data, "tp".data, "tc".data] (by decide) (by decide) (by decide)

/-! ## PREDICTION-MODULE/prediction.py : train_model row alignment (claim C5)

`train_model` (lines 2039-2075) normalizes the endpoint column of the three
loaded tables, intersects the normalized endpoints, raises when the
intersection is empty, filters each table to the common endpoints, sorts by
normalized endpoint, and drops duplicate normalized endpoints keeping the
first occurrence.  A table row is modelled by its endpoint string and its
slack value; the remaining numeric columns play no role in the row
alignment. -/

structure Row where
  endpoint : List Char
  slack : ℚ

/-- The `normalized_endpoint` column value of a row. -/
def nep (row : Row) : List Char := normalize_endpoint row.endpoint

/-- `set(place).intersection(cts, route)` over the normalized endpoint
columns: the distinct normalized endpoints of the place table that occur in
both other tables. -/
def commonEndpoints (place cts route : List Row) : List (List Char) :=
  ((place.map nep).dedup).filter
    (fun e => decide (e ∈ cts.map nep ∧ e ∈ route.map nep))

/-- `data[data['normalized_endpoint'].isin(common_endpoints)]`. -/
def filterCommon (common : List (List Char)) (t : List Row) : List Row :=
  t.filter (fun row => decide (nep row ∈ common))

/-- `data.sort_values(by='normalized_endpoint')`. -/
def sortByNep (t : List Row) : List Row :=
  t.insertionSort (fun a b => nep a ≤ nep b)

/-- `data.drop_duplicates(subset=['normalized_endpoint'], keep='first')`,
with `seen` the normalized endpoints of rows already kept. -/
def dropDuplicatesAux (seen : List (List Char)) : List Row → List Row
  | [] => []
  | x :: xs =>
    if nep x ∈ seen then dropDuplicatesAux seen xs
    else x :: dropDuplicatesAux (nep x :: seen) xs

def drop_duplicates (t : List Row) : List Row := dropDuplicatesAux [] t

/-- The filter-sort-deduplicate pipeline applied to each of the three
tables by `train_model`. -/
def alignTable (common : List (List Char)) (t : List Row) : List Row :=
  drop_duplicates (sortByNep (filterCommon common t))

/-- Embedding of the row-alignment portion of `train_model`: compute the
common normalized endpoints, raise when there are none, otherwise filter,
sort and deduplicate each table. -/
def train_prepare (place cts route : List Row) :
    Except (List Char) (List Row × List Row × List Row) :=
  let common := commonEndpoints place cts route
  if common.isEmpty then
    Except.error "No common endpoints found between the three tables".data
  else
    Except.ok (alignTable common place, alignTable common cts, alignTable common route)

/-- Deduplication of a key list, excluding keys already `seen`. -/
def dedupExcl (seen : List (List Char)) : List (List Char) → List (List Char)
  | [] => []
  | k :: ks =>
    if k ∈ seen then dedupExcl seen ks
    else k :: dedupExcl (k :: seen) ks

lemma map_nep_dropDuplicatesAux :
    ∀ (l : List Row) (seen : List (List Char)),
      (dropDuplicatesAux seen l).map nep = dedupExcl seen (l.map nep) := by
  intro l
  induction l with
  | nil => intro seen; rfl
  | cons x xs ih =>
    intro seen
    simp only [dropDuplicatesAux, List.map_cons, dedupExcl]
    split_ifs with h
    · exact ih seen
    · simp [ih (nep x :: seen)]

lemma mem_dedupExcl (x : List Char) :
    ∀ (l seen : List (List Char)),
      x ∈ dedupExcl seen l ↔ x ∈ l ∧ x ∉ seen := by
  intro l
  induction l with
  | nil => intro seen; simp [dedupExcl]
  | cons k ks ih =>
    intro seen
    simp only [dedupExcl]
    split_ifs with hk
    · rw [ih seen]
      simp only [List.mem_cons]
      by_cases hxk : x = k
      · subst hxk; simp [hk]
      · simp [hxk]
    · simp only [List.mem_cons, ih (k :: seen)]
      by_cases hxk : x = k
      · subst hxk; simp [hk]
      · simp [hxk]

lemma nodup_dedupExcl :
    ∀ (l seen : List (List Char)), (dedupExcl seen l).Nodup := by
  intro l
  induction l with
  | nil => intro seen; simp [dedupExcl]
  | cons k ks ih =>
    intro seen
    simp only [dedupExcl]
    split_ifs with hk
    · exact ih seen
    · refine List.nodup_cons.mpr ⟨fun hmem => ?_, ih (k :: seen)⟩
      exact ((mem_dedupExcl k ks (k :: seen)).mp hmem).2 (List.mem_cons_self k seen)

lemma map_nep_filterCommon (common : List (List Char)) (t : List Row) :
    (filterCommon common t).map nep =
      (t.map nep).filter (fun e => decide (e ∈ common)) := by
  induction t with
  | nil => rfl
  | cons x xs ih =>
    simp only [filterCommon, List.filter_cons, List.map_cons] at *
    split_ifs with h
    · simp only [List.map_cons, ih]
    · exact ih

lemma sortByNep_perm (t : List Row) : List.Perm (sortByNep t) t :=
  List.perm_insertionSort _ t

/-- Aligning a table keeps exactly one row per common endpoint: its
normalized-endpoint column is a permutation of the common endpoint list. -/
lemma alignTable_perm (common : List (List Char)) (t : List Row)
    (hsub : ∀ x ∈ common, x ∈ t.map nep) (hnd : common.Nodup) :
    List.Perm ((alignTable common t).map nep) common := by
  have h1 : (alignTable common t).map nep =
      dedupExcl [] ((sortByNep (filterCommon common t)).map nep) :=
    map_nep_dropDuplicatesAux _ []
  have hpermkeys : List.Perm ((sortByNep (filterCommon common t)).map nep)
      ((filterCommon common t).map nep) := (sortByNep_perm _).map nep
  have hmemiff : ∀ x,
      x ∈ dedupExcl [] ((sortByNep (filterCommon common t)).map nep) ↔
        x ∈ common := by
    intro x
    rw [mem_dedupExcl]
    simp only [List.not_mem_nil, not_false_eq_true, and_true]
    rw [hpermkeys.mem_iff, map_nep_filterCommon]
    simp only [List.mem_filter, decide_eq_true_eq]
    constructor
    · rintro ⟨_, hx⟩; exact hx
    · intro hx; exact ⟨hsub x hx, hx⟩
  rw [h1]
  exact (List.perm_ext_iff_of_nodup (nodup_dedupExcl _ _) hnd).mpr hmemiff

lemma commonEndpoints_nodup (place cts route : List Row) :
    (commonEndpoints place cts route).Nodup :=
  (List.nodup_dedup _).filter _

lemma mem_commonEndpoints {x : List Char} {place cts route : List Row} :
    x ∈ commonEndpoints place cts route ↔
      x ∈ place.map nep ∧ x ∈ cts.map nep ∧ x ∈ route.map nep := by
  unfold commonEndpoints
  simp [List.mem_filter, List.mem_dedup, and_assoc]

/-- **C5.** After `train_model` normalizes endpoints, filters each table to
the common normalized endpoints, sorts, and drops duplicates keeping the
first occurrence, the three tables each contain exactly one row per common
normalized endpoint (their normalized-endpoint columns are permutations of
the duplicate-free common endpoint list) and hence have equal row counts —
the size-mismatch error branch is unreachable; when there is no common
normalized endpoint, `train_model` raises an error instead. -/
theorem train_model_row_alignment (place cts route : List Row) :
    (commonEndpoints place cts route = [] →
      train_prepare place cts route =
        Except.error "No common endpoints found between the three tables".data) ∧
    (commonEndpoints place cts route ≠ [] →
      ∃ p' c' r', train_prepare place cts route = Except.ok (p', c', r') ∧
        (commonEndpoints place cts route).Nodup ∧
        List.Perm (p'.map nep) (commonEndpoints place cts route) ∧
        List.Perm (c'.map nep) (commonEndpoints place cts route) ∧
        List.Perm (r'.map nep) (commonEndpoints place cts route) ∧
        p'.length = c'.length ∧ c'.length = r'.length) := by
  constructor
  · intro h
    simp only [train_prepare]
    rw [if_pos (by simp [h])]
  · intro h
    have hnd := commonEndpoints_nodup place cts route
    have hp := alignTable_perm (commonEndpoints place cts route) place
      (fun x hx => (mem_commonEndpoints.mp hx).1) hnd
    have hc := alignTable_perm (commonEndpoints place cts route) cts
      (fun x hx => (mem_commonEndpoints.mp hx).2.1) hnd
    have hr := alignTable_perm (commonEndpoints place cts route) route
      (fun x hx => (mem_commonEndpoints.mp hx).2.2) hnd
    refine ⟨alignTable (commonEndpoints place cts route) place,
      alignTable (commonEndpoints place cts route) cts,
      alignTable (commonEndpoints place cts route) route, ?_, hnd, hp, hc, hr, ?_, ?_⟩
    · simp only [train_prepare]
      rw [if_neg (by simp [h])]
    · have l1 := hp.length_eq
      have l2 := hc.length_eq
      rw [List.length_map] at l1 l2
      omega
    · have l2 := hc.length_eq
      have l3 := hr.length_eq
      rw [List.length_map] at l2 l3
      omega

/-- Concrete instantiation of `train_model_row_alignment`: three one-row
tables sharing the normalized endpoint `"a/b"` align to one row each, and
three tables with disjoint endpoints make `train_prepare` raise. -/
theorem train_model_row_alignment_witness :
    (∃ p' c' r',
      train_prepare [⟨"a/b".data, 0⟩] [⟨"x/a/b".data, 1⟩] [⟨"a/b".data, 2⟩] =
          Except.ok (p', c', r') ∧
        (commonEndpoints [⟨"a/b".data, 0⟩] [⟨"x/a/b".data, 1⟩]
            [⟨"a/b".data, 2⟩]).Nodup ∧
        List.Perm (p'.map nep) (commonEndpoints [⟨"a/b".data, 0⟩]
            [⟨"x/a/b".data, 1⟩] [⟨"a/b".data, 2⟩]) ∧
        List.Perm (c'.map nep) (commonEndpoints [⟨"a/b".data, 0⟩]
            [⟨"x/a/b".data, 1⟩] [⟨"a/b".data, 2⟩]) ∧
        List.Perm (r'.map nep) (commonEndpoints [⟨"a/b".data, 0⟩]
            [⟨"x/a/b".data, 1⟩] [⟨"a/b".data, 2⟩]) ∧
        p'.length = c'.length ∧ c'.length = r'.length) ∧
    train_prepare [⟨"a/b".data, 0⟩] [⟨"c/d".data, 1⟩] [⟨"a/b".data, 2⟩] =
      Except.error "No common endpoints found between the three tables".data :=
  ⟨(train_model_row_alignment [⟨"a/b".data, 0⟩] [⟨"x/a/b".data, 1⟩]
      [⟨"a/b".data, 2⟩]).2 (by decide),
   (train_model_row_alignment [⟨"a/b".data, 0⟩] [⟨"c/d".data, 1⟩]
      [⟨"a/b".data, 2⟩]).1 (by decide)⟩

/-! ## PREDICTION-MODULE/prediction.py : generate_synthetic_data (claim C9)

Mutation of pandas DataFrames is observable only through aliasing, so the
embedding uses an explicit store: a DataFrame value is an association list
of columns, a DataFrame object is a reference (a natural number) into the
store, `copy(deep=True)` allocates a fresh reference holding the same
value, and `df[col] = v` updates the value of the referenced cell in
place.  The numpy draws (`np.random.uniform`, `np.random.normal`) are
abstract list parameters. -/

/-- A DataFrame value: column name to column values. -/
def DF : Type := List (List Char × List ℚ)

/-- Look up a column of a DataFrame value. -/
def lookupCol (df : DF) (col : List Char) : Option (List ℚ) :=
  match df with
  | [] => none
  | (c, v) :: rest => if c = col then some v else lookupCol rest col

/-- Assign a column of a DataFrame value (replace it, or append it when it
does not yet exist). -/
def dfSetCol (df : DF) (col : List Char) (v : List ℚ) : DF :=
  match df with
  | [] => [(col, v)]
  | (c, w) :: rest =>
    if c = col then (col, v) :: rest else (c, w) :: dfSetCol rest col v

/-- A store of DataFrame objects: the next fresh reference and the value
held at each reference. -/
structure PdStore where
  next : ℕ
  heap : ℕ → DF

/-- `reference_data.copy(deep=True)`: allocate a fresh reference holding
the same DataFrame value. -/
def deepCopy (r : ℕ) (s : PdStore) : ℕ × PdStore :=
  (s.next, ⟨s.next + 1, fun i => if i = s.next then s.heap r else s.heap i⟩)

/-- `df[col] = v`: in-place column assignment on the referenced object. -/
def setColumn (r : ℕ) (col : List Char) (v : List ℚ) (s : PdStore) : PdStore :=
  ⟨s.next, fun i => if i = r then dfSetCol (s.heap i) col v else s.heap i⟩

/-- One iteration of the numeric-perturbation loop of
`generate_synthetic_data` (lines 569-576): columns other than `slack` (and
other than the identification columns) with non-empty values are multiplied
elementwise by a random variation, in place on the synthetic copy `r'`. -/
def perturbStep (variationFor : List Char → List ℚ) (r' : ℕ)
    (acc : PdStore) (col : List Char) : PdStore :=
  if col ≠ "slack".data ∧ (lookupCol (acc.heap r') col).getD [] ≠ [] ∧
      col ∉ ["endpoint".data, "beginpoint".data, "normalized_endpoint".data] then
    setColumn r' col
      (List.zipWith (fun a b => a * b) ((lookupCol (acc.heap r') col).getD [])
        (variationFor col)) acc
  else acc

/-- Embedding of `generate_synthetic_data`
(src/python/PREDICTION-MODULE/prediction.py lines 528-583): deep-copy the
reference DataFrame, overwrite the `slack` column of the copy with
synthetic slacks (reference slacks plus noise when a slack column exists,
otherwise fresh uniform draws; place and cts differ only in the
distribution parameters of the abstract draws), then perturb the remaining
numeric columns of the copy, and return the copy's reference. -/
def generate_synthetic_data (isPlace : Bool)
    (uniformPlace noisePlace uniformCts noiseCts : List ℚ)
    (variationFor : List Char → List ℚ) (r : ℕ) (s : PdStore) : ℕ × PdStore :=
  let rs := deepCopy r s
  let r' := rs.1
  let s1 := rs.2
  let synthSlacks :=
    if isPlace then
      match lookupCol (s1.heap r') "slack".data with
      | some ref => List.zipWith (fun a b => a + b) ref noisePlace
      | none => uniformPlace
    else
      match lookupCol (s1.heap r') "slack".data with
      | some ref => List.zipWith (fun a b => a + b) ref noiseCts
      | none => uniformCts
  let s2 := setColumn r' "slack".data synthSlacks s1
  let cols := (s2.heap r').map (fun p => p.1)
  let s3 := cols.foldl (perturbStep variationFor r') s2
  (r', s3)

lemma setColumn_preserve {r r' : ℕ} (col : List Char) (v : List ℚ)
    (s : PdStore) (h : r ≠ r') : (setColumn r' col v s).heap r = s.heap r := by
  simp [setColumn, h]

lemma perturbStep_preserve {r r' : ℕ} (variationFor : List Char → List ℚ)
    (acc : PdStore) (col : List Char) (h : r ≠ r') :
    (perturbStep variationFor r' acc col).heap r = acc.heap r := by
  unfold perturbStep
  split_ifs
  · exact setColumn_preserve _ _ _ h
  · rfl

lemma foldl_perturb_preserve {r r' : ℕ} (variationFor : List Char → List ℚ)
    (h : r ≠ r') :
    ∀ (cols : List (List Char)) (acc : PdStore),
      ((cols.foldl (perturbStep variationFor r') acc)).heap r = acc.heap r := by
  intro cols
  induction cols with
  | nil => intro acc; rfl
  | cons c cs ih =>
    intro acc
    rw [List.foldl_cons, ih (perturbStep variationFor r' acc c),
      perturbStep_preserve variationFor acc c h]

/-- **C9.** `generate_synthetic_data` never mutates its reference
DataFrame: for every allocated reference `r`, the store cell of `r` —
hence in particular its `slack` column — is unchanged by the call; all
slack replacement and numeric perturbation act only on the fresh deep
copy that is returned. -/
theorem generate_synthetic_data_frame (isPlace : Bool)
    (uniformPlace noisePlace uniformCts noiseCts : List ℚ)
    (variationFor : List Char → List ℚ) (r : ℕ) (s : PdStore)
    (hr : r < s.next) :
    ((generate_synthetic_data isPlace uniformPlace noisePlace uniformCts
        noiseCts variationFor r s).2).heap r = s.heap r := by
  have hne : r ≠ s.next := Nat.ne_of_lt hr
  simp only [generate_synthetic_data, deepCopy]
  rw [foldl_perturb_preserve variationFor hne,
    setColumn_preserve _ _ _ hne]
  simp [hne]

/-- Concrete instantiation of `generate_synthetic_data_frame`: a store with
one allocated DataFrame holding a `slack` column, which is unchanged by the
call. -/
theorem generate_synthetic_data_frame_witness :
    ((generate_synthetic_data true [] [1/2] [] [] (fun _ => [2]) 0
        ⟨1, fun _ => [("slack".data, [1])]⟩).2).heap 0 =
      (⟨1, fun _ => [("slack".data, [1])]⟩ : PdStore).heap 0 :=
  generate_synthetic_data_frame true [] [1/2] [] [] (fun _ => [2]) 0
    ⟨1, fun _ => [("slack".data, [1])]⟩ (by decide)

end RunstatusPinnacle
